import Mathlib

/-!
Verification of the content-transfer import command
(`packages/core/strapi/lib/commands/transfer/import.js`).

The definitions below are a shallow embedding of that file: every
definition carries a comment naming the source lines it embeds, and the
theorems at the end of the file settle the specification's claims about
them.
-/

namespace ImportCommand

/-! ## Data model

Entities and links as the engine's filter rules see them
(`engineOptions.rules`, import.js lines 62-78): a filter only ever reads
the `type` field of an entity and the `left.type` / `right.type` fields
of a link, so those are the fields the embedding keeps.  Type
identifiers are strings. -/

/-- A typed endpoint of a link (`link.left` / `link.right`). -/
structure Endpoint where
  type : String
  deriving DecidableEq, Repr

/-- An entity record as seen by the entity filter rule. -/
structure Entity where
  type : String
  deriving DecidableEq, Repr

/-- A link (relation) record as seen by the link filter rule. -/
structure Link where
  left : Endpoint
  right : Endpoint
  deriving DecidableEq, Repr

/-! ## Filter rules (import.js lines 62-78)

The source installs one entity rule and one link rule, both closing over
the excluded-type list `DEFAULT_IGNORED_CONTENT_TYPES` (imported from
`./utils`, outside this file).  The rule bodies are embedded here with
the excluded list as an explicit parameter, since the bodies themselves
are independent of which list they close over. -/

/-- Entity rule body, import.js line 75:
`(entity) => !DEFAULT_IGNORED_CONTENT_TYPES.includes(entity.type)`. -/
def entitiesRuleFilter (excluded : List String) (entity : Entity) : Bool :=
  !(excluded.contains entity.type)

/-- Link rule body, import.js lines 65-70:
`!DEFAULT_IGNORED_CONTENT_TYPES.includes(link.left.type) &&
 !DEFAULT_IGNORED_CONTENT_TYPES.includes(link.right.type)`. -/
def linksRuleFilter (excluded : List String) (link : Link) : Bool :=
  !(excluded.contains link.left.type) && !(excluded.contains link.right.type)

/-! ## Strategy resolution (import.js lines 44-60)

`opts.conflictStrategy || DEFAULT_CONFLICT_STRATEGY` and the analogous
version/schema lines use JavaScript `||`: the right operand is taken
when the left is absent (`undefined`) or an empty (falsy) string.  The
three `DEFAULT_*` constants are imported from `@strapi/data-transfer`
(outside this file), so they stay abstract parameters here. -/

/-- JavaScript `v || d` for a possibly-absent string `v`:
`undefined` and the empty string are falsy. -/
def jsOrDefault (v : Option String) (d : String) : String :=
  match v with
  | none => d
  | some s => if s = "" then d else s

/-- The strategy-relevant fields of the Commander `opts` object.
`none` models an absent (`undefined`) field. -/
structure StrategyOpts where
  versionStrategy : Option String
  schemaStrategy : Option String
  conflictStrategy : Option String

/-- The three resolved strategies:
`destinationOptions.strategy` (line 48), `engineOptions.versionStrategy`
(line 59) and `engineOptions.schemaStrategy` (line 60), each built with
JavaScript `||` against its default constant. -/
def resolvedStrategies (opts : StrategyOpts)
    (defaultVersion defaultSchema defaultConflict : String) :
    String × String × String :=
  (jsOrDefault opts.versionStrategy defaultVersion,
   jsOrDefault opts.schemaStrategy defaultSchema,
   jsOrDefault opts.conflictStrategy defaultConflict)

/-! ## Telemetry payload (import.js lines 86-93)

`telemetryPayload` ignores the lifecycle event's payload entirely and
rebuilds the same object from the two provider names. -/

/-- The `eventProperties` object sent with every telemetry event. -/
structure EventProperties where
  source : String
  destination : String
  deriving DecidableEq, Repr

/-- The value returned by `telemetryPayload`. -/
structure TelemetryProperties where
  eventProperties : EventProperties
  deriving DecidableEq, Repr

/-- import.js lines 86-93: the lifecycle payload parameter is unused
(commented out in the source); the result only mentions
`engine.sourceProvider.name` and `engine.destinationProvider.name`. -/
def telemetryPayload {α : Type} (sourceName destinationName : String)
    (_payload : α) : TelemetryProperties :=
  { eventProperties := { source := sourceName, destination := destinationName } }

/-! ## Archive codec (import.js lines 156-181)

`getLocalFileSourceOptions` inspects the archive path with Node's
`path.extname` and `path.parse(file).name`.  Those two library functions
are embedded below over the path's character list, following Node's
`path.posix` semantics: both first skip trailing slashes and restrict
attention to the basename (the part after the last remaining slash);
`extname` is the basename's suffix from its last dot, except that it is
empty when the basename has no dot, when the last dot is the basename's
first character (dotfiles such as `.bashrc`), or when the basename is
exactly `..`; `parse(p).name` is the basename with that extension
removed. -/

/-- The path's basename, reversed: reverse the characters, drop the
trailing slashes, and keep everything up to the next slash. -/
def revBasename (p : String) : List Char :=
  ((p.data.reverse).dropWhile (· == '/')).takeWhile (· != '/')

/-- The extension read off a reversed basename: everything up to and
including the first dot, reversed back; empty when there is no dot,
when the dot is the basename's first character, or for the basename
`..`. -/
def extOfRev (r : List Char) : String :=
  match r.findIdx? (· == '.') with
  | none => ""
  | some i =>
      if i + 1 = r.length then ""
      else if r = ['.', '.'] then ""
      else String.mk ((r.take (i + 1)).reverse)

/-- Node `path.extname`. -/
def extname (p : String) : String :=
  extOfRev (revBasename p)

/-- Node `path.parse(p).name`: the basename with `extname p` removed.
Note it drops any directory part of `p`. -/
def parseName (p : String) : String :=
  String.mk ((revBasename p).drop (extname p).length |>.reverse)

/-- The options object built by `getLocalFileSourceOptions`
(import.js lines 160-164): `file.path`, `compression.enabled`,
`encryption.enabled` and, when encryption is enabled, `encryption.key`
as passed in `opts.key` (possibly absent). -/
structure FileSourceOptions where
  filePath : String
  compressionEnabled : Bool
  encryptionEnabled : Bool
  encryptionKey : Option String
  deriving DecidableEq, Repr

/-- import.js lines 156-181.  Starts from
`{file: {path}, compression: {enabled: false}, encryption: {enabled: false}}`;
if `extname file === '.enc'` it strips that suffix (`parse(file).name`)
and sets `encryption = {enabled: true, key: opts.key}`; then, if the
remaining name has `extname === '.gz'`, it sets
`compression = {enabled: true}`.  No error path exists in the source. -/
def getLocalFileSourceOptions (file : String) (key : Option String) :
    FileSourceOptions :=
  let f₀ := file
  let step₁ :=
    if extname f₀ = ".enc" then
      (parseName f₀, true, key)
    else
      (f₀, false, (none : Option String))
  let f₁ := step₁.1
  let compression := extname f₁ = ".gz"
  { filePath := file
    compressionEnabled := compression
    encryptionEnabled := step₁.2.1
    encryptionKey := step₁.2.2 }

/-! ## Exit-wait loop (import.js lines 134-146)

`waitForExitCode(maxWait)` checks the shared cell `transferExitCode`
and, while it is unset and less than `maxWait` milliseconds have
elapsed, sleeps 50 ms and checks again; when the cell is set it exits
the process with the recorded code, and when the deadline passes it
exits with 0.  The embedding idealizes each iteration as taking exactly
its 50 ms sleep, so a check happens at every elapsed time 0, 50, 100, …;
the cell's observable content at elapsed time `t` is a function
`status : Nat → Option Nat`.  The result pairs the exit code with the
elapsed time at which the process exits. -/

/-- The loop of `waitForExitCode`, at elapsed time `t`. -/
def waitLoop (status : Nat → Option Nat) (maxWait t : Nat) : Nat × Nat :=
  if t < maxWait then
    match status t with
    | some c => (c, t)
    | none => waitLoop status maxWait (t + 50)
  else
    (0, t)
termination_by maxWait - t
decreasing_by omega

/-- import.js lines 134-146: the wait starts at elapsed time 0. -/
def waitForExitCode (status : Nat → Option Nat) (maxWait : Nat) : Nat × Nat :=
  waitLoop status maxWait 0

/-! ## Command orchestration (import.js lines 25-147)

The exported command: it exits with code 1 when `opts` is not an
object; otherwise it awaits `engine.transfer()` inside a `try` — any
rejection or exception from the awaited transfer or from the
result-table printing lands in the `catch`, which logs and calls
`process.exit(1)` directly, never reaching `waitForExitCode` — and on
success it runs `waitForExitCode(5000)` against whatever the
asynchronous `transfer::finish` / `transfer::error` handlers have
written (or will write) into `transferExitCode`. -/

/-- How the awaited orchestration block resolves: `fulfilled status`
when `engine.transfer()` and the table printing complete, with `status`
the content of `transferExitCode` each poll of the exit wait would
observe; `thrown` when an exception escapes that block. -/
inductive OrchestrationRun where
  | fulfilled (status : Nat → Option Nat)
  | thrown

/-- The command's observable outcome: the process exit code, whether
the bounded exit wait ran at all, and whether the `catch` block logged
an unexpected failure. -/
structure CommandOutcome where
  exitCode : Nat
  ranExitWait : Bool
  loggedUnexpectedFailure : Bool
  deriving DecidableEq, Repr

/-- import.js lines 25-147: argument validation (lines 27-30), the
`try`/`catch` around the awaited transfer (lines 109-119), and the
final `waitForExitCode(5000)` (line 146). -/
def importCommand (optsIsObject : Bool) (run : OrchestrationRun) :
    CommandOutcome :=
  if optsIsObject = false then
    { exitCode := 1, ranExitWait := false, loggedUnexpectedFailure := false }
  else
    match run with
    | .thrown =>
        { exitCode := 1, ranExitWait := false, loggedUnexpectedFailure := true }
    | .fulfilled status =>
        { exitCode := (waitForExitCode status 5000).1
          ranExitWait := true
          loggedUnexpectedFailure := false }

/-! ## Terminal-status cell written by the progress handlers
(import.js lines 82-107)

`transferExitCode` starts unset; the `transfer::finish` handler writes
0, the `transfer::error` handler writes 1, and the `transfer::start`
handler does not touch it.  The trace of lifecycle events a run
delivers to the handlers is a list, and the cell's final content is a
fold of the handler bodies over it. -/

/-- The lifecycle events the source subscribes to (lines 95-107). -/
inductive LifecycleEvent where
  | start
  | finish
  | error
  deriving DecidableEq, Repr

/-- Whether an event is terminal (closes the run). -/
def LifecycleEvent.isTerminal : LifecycleEvent → Bool
  | .finish => true
  | .error => true
  | .start => false

/-- One handler invocation's effect on `transferExitCode`
(lines 95-107): `transfer::finish` assigns 0, `transfer::error`
assigns 1, `transfer::start` leaves the cell alone. -/
def handleEvent (cell : Option Nat) : LifecycleEvent → Option Nat
  | .start => cell
  | .finish => some 0
  | .error => some 1

/-- The cell's content after the handlers processed a trace of events,
starting from the unset state (`let transferExitCode;`, line 82). -/
def runHandlers (trace : List LifecycleEvent) : Option Nat :=
  trace.foldl handleEvent none

/-- A trace is well formed when at most one terminal event occurs in
it — the engine's lifecycle contract: exactly one of `Finish`/`Error`
closes a run. -/
def wellFormedTrace (trace : List LifecycleEvent) : Bool :=
  trace.countP (·.isTerminal) ≤ 1

/-- The status cell as the exit wait observes it over time.
Terminal-event handlers run on a later scheduling turn than the code
that starts `waitForExitCode`; `statusFrom trace settleTime` is the
cell's observable content at elapsed time `t`: unset before the
handlers settle at `settleTime`, and the fold of the handlers over the
run's event trace from then on. -/
def statusFrom (trace : List LifecycleEvent) (settleTime : Nat) :
    Nat → Option Nat :=
  fun t => if settleTime ≤ t then runHandlers trace else none

end ImportCommand

namespace ImportCommand

/-! ## Claims about the filter rules, strategies and telemetry -/

/-- C1: the entity filter keeps an entity iff its type is not excluded;
the link filter keeps a link iff neither endpoint's type is excluded. -/
theorem filters_keep_iff_not_excluded (excluded : List String)
    (entity : Entity) (link : Link) :
    (entitiesRuleFilter excluded entity = true ↔ entity.type ∉ excluded) ∧
    (linksRuleFilter excluded link = true ↔
      link.left.type ∉ excluded ∧ link.right.type ∉ excluded) := by
  constructor
  · simp [entitiesRuleFilter]
  · simp [linksRuleFilter]

/-- C8: each of the three strategies falls back to its own default
constant when the caller leaves it unspecified, and a caller-supplied
(non-falsy) value is used unchanged. -/
theorem strategies_default_or_passthrough
    (dv ds dc : String) :
    (∀ sc, resolvedStrategies ⟨none, none, sc⟩ dv ds dc =
      (dv, ds, jsOrDefault sc dc)) ∧
    (∀ vs ss cs, vs ≠ "" → ss ≠ "" → cs ≠ "" →
      resolvedStrategies ⟨some vs, some ss, some cs⟩ dv ds dc =
        (vs, ss, cs)) ∧
    (∀ opts, opts.conflictStrategy = none →
      (resolvedStrategies opts dv ds dc).2.2 = dc) := by
  refine ⟨fun sc => rfl, fun vs ss cs hv hs hc => ?_, fun opts h => ?_⟩
  · simp [resolvedStrategies, jsOrDefault, hv, hs, hc]
  · simp [resolvedStrategies, h, jsOrDefault]

/-- Witness for C8 at concrete inputs. -/
theorem strategies_default_or_passthrough_witness :
    resolvedStrategies ⟨none, none, none⟩ "v0" "s0" "c0" =
      ("v0", "s0", jsOrDefault none "c0") ∧
    resolvedStrategies ⟨some "exact", some "strict", some "restore"⟩ "v0" "s0" "c0" =
      ("exact", "strict", "restore") := by
  refine ⟨(strategies_default_or_passthrough "v0" "s0" "c0").1 none, ?_⟩
  exact (strategies_default_or_passthrough "v0" "s0" "c0").2.1
    "exact" "strict" "restore" (by decide) (by decide) (by decide)

/-- C10: the telemetry event properties are the same for any two
lifecycle payloads — only the provider names flow in. -/
theorem telemetryPayload_independent_of_payload
    {α β : Type} (src dst : String) (p₁ : α) (p₂ : β) :
    telemetryPayload src dst p₁ = telemetryPayload src dst p₂ ∧
    telemetryPayload src dst p₁ =
      ⟨{ source := src, destination := dst }⟩ := by
  exact ⟨rfl, rfl⟩

/-! ## Helper lemmas for the archive codec

The archive-path lemmas quantify over a base name `b` given by
hypotheses on its characters (nonempty, no dot, no slash), and compute
`extname` / `parseName` on `b` with the recognized suffixes
appended. -/

/-- `findIdx?` finds nothing in a dot-free character list. -/
theorem findIdx?_dot_none : ∀ (r : List Char) (i : Nat),
    (∀ x ∈ r, x ≠ '.') → List.findIdx? (· == '.') r i = none := by
  intro r
  induction r with
  | nil => intro i h; rfl
  | cons a t ih =>
      intro i h
      rw [List.findIdx?_cons, if_neg]
      · exact ih (i + 1) (fun x hx => h x (List.mem_cons_of_mem a hx))
      · simp only [beq_iff_eq]
        exact h a (List.mem_cons_self a t)

/-- `dropWhile` keeps a list none of whose elements satisfy the
predicate. -/
theorem dropWhile_all_false {p : Char → Bool} (l : List Char)
    (h : ∀ x ∈ l, p x = false) : l.dropWhile p = l := by
  cases l with
  | nil => rfl
  | cons a t =>
      rw [List.dropWhile_cons, if_neg]
      simp [h a (List.mem_cons_self a t)]

/-- `takeWhile` keeps a list all of whose elements satisfy the
predicate. -/
theorem takeWhile_all_true {p : Char → Bool} : ∀ (l : List Char),
    (∀ x ∈ l, p x = true) → l.takeWhile p = l := by
  intro l
  induction l with
  | nil => intro h; rfl
  | cons a t ih =>
      intro h
      rw [List.takeWhile_cons, if_pos (h a (List.mem_cons_self a t))]
      rw [ih (fun x hx => h x (List.mem_cons_of_mem a hx))]

/-- On a slash-free path the basename is the whole path. -/
theorem revBasename_no_slash (s : String) (h : ∀ x ∈ s.data, x ≠ '/') :
    revBasename s = s.data.reverse := by
  unfold revBasename
  have h₁ : ∀ x ∈ s.data.reverse, (x == '/') = false := by
    intro x hx
    simp only [beq_eq_false_iff_ne, ne_eq]
    exact h x (List.mem_reverse.mp hx)
  have h₂ : ∀ x ∈ s.data.reverse, (x != '/') = true := by
    intro x hx
    simp only [bne_iff_ne, ne_eq]
    exact h x (List.mem_reverse.mp hx)
  rw [dropWhile_all_false _ h₁, takeWhile_all_true _ h₂]

/-- A dot-free basename has no extension. -/
theorem extOfRev_dotless (r : List Char) (h : ∀ x ∈ r, x ≠ '.') :
    extOfRev r = "" := by
  unfold extOfRev
  rw [findIdx?_dot_none r 0 h]

/-- A reversed basename starting `cne.` (i.e. ending `.enc`) with a
nonempty remainder has extension `.enc`. -/
theorem extOfRev_enc (tail : List Char) (ht : tail ≠ []) :
    extOfRev ('c' :: 'n' :: 'e' :: '.' :: tail) = ".enc" := by
  have hlen : 0 < tail.length := List.length_pos.mpr ht
  unfold extOfRev
  rw [List.findIdx?_cons, if_neg (by decide), List.findIdx?_cons, if_neg (by decide),
      List.findIdx?_cons, if_neg (by decide), List.findIdx?_cons, if_pos (by decide)]
  simp only [List.length_cons]
  rw [if_neg (by omega)]
  rw [if_neg (by simp)]
  norm_num [List.take]

/-- A reversed basename starting `zg.` (i.e. ending `.gz`) with a
nonempty remainder has extension `.gz`. -/
theorem extOfRev_gz (tail : List Char) (ht : tail ≠ []) :
    extOfRev ('z' :: 'g' :: '.' :: tail) = ".gz" := by
  have hlen : 0 < tail.length := List.length_pos.mpr ht
  unfold extOfRev
  rw [List.findIdx?_cons, if_neg (by decide), List.findIdx?_cons, if_neg (by decide),
      List.findIdx?_cons, if_pos (by decide)]
  simp only [List.length_cons]
  rw [if_neg (by omega)]
  rw [if_neg (by simp)]
  norm_num [List.take]

/-- Appending slash-free strings yields a slash-free string. -/
theorem no_slash_append (b s : String) (hb : ∀ x ∈ b.data, x ≠ '/')
    (hs : ∀ x ∈ s.data, x ≠ '/') : ∀ x ∈ (b ++ s).data, x ≠ '/' := by
  intro x hx
  rw [String.data_append] at hx
  rcases List.mem_append.mp hx with h | h
  · exact hb x h
  · exact hs x h

/-- `extname` of `b ++ ".gz.enc"` is `.enc`. -/
theorem extname_append_gz_enc (b : String)
    (hslash : ∀ x ∈ b.data, x ≠ '/') :
    extname (b ++ ".gz.enc") = ".enc" := by
  unfold extname
  rw [revBasename_no_slash _ (no_slash_append b ".gz.enc" hslash (by decide)),
      String.data_append, List.reverse_append]
  show extOfRev
    ('c' :: 'n' :: 'e' :: '.' :: ('z' :: 'g' :: '.' :: b.data.reverse)) = ".enc"
  exact extOfRev_enc _ (by simp)

/-- Stripping `.enc` from `b ++ ".gz.enc"` leaves `b ++ ".gz"`. -/
theorem parseName_append_gz_enc (b : String)
    (hslash : ∀ x ∈ b.data, x ≠ '/') :
    parseName (b ++ ".gz.enc") = b ++ ".gz" := by
  unfold parseName
  rw [extname_append_gz_enc b hslash,
      revBasename_no_slash _ (no_slash_append b ".gz.enc" hslash (by decide)),
      String.data_append, List.reverse_append]
  show String.mk
    ((('c' :: 'n' :: 'e' :: '.' :: ('z' :: 'g' :: '.' :: b.data.reverse)).drop 4).reverse)
    = b ++ ".gz"
  show String.mk (('z' :: 'g' :: '.' :: b.data.reverse).reverse)
    = String.mk (b.data ++ ['.', 'g', 'z'])
  apply congrArg String.mk
  simp

/-- `extname` of `b ++ ".gz"` is `.gz` for nonempty `b`. -/
theorem extname_append_gz (b : String) (hb : b.data ≠ [])
    (hslash : ∀ x ∈ b.data, x ≠ '/') : extname (b ++ ".gz") = ".gz" := by
  unfold extname
  rw [revBasename_no_slash _ (no_slash_append b ".gz" hslash (by decide)),
      String.data_append, List.reverse_append]
  show extOfRev ('z' :: 'g' :: '.' :: b.data.reverse) = ".gz"
  exact extOfRev_gz _ (by simpa using hb)

/-- `extname` of `b ++ ".enc"` is `.enc` for nonempty `b`. -/
theorem extname_append_enc (b : String) (hb : b.data ≠ [])
    (hslash : ∀ x ∈ b.data, x ≠ '/') : extname (b ++ ".enc") = ".enc" := by
  unfold extname
  rw [revBasename_no_slash _ (no_slash_append b ".enc" hslash (by decide)),
      String.data_append, List.reverse_append]
  show extOfRev ('c' :: 'n' :: 'e' :: '.' :: b.data.reverse) = ".enc"
  exact extOfRev_enc _ (by simpa using hb)

/-- Stripping `.enc` from `b ++ ".enc"` leaves `b`. -/
theorem parseName_append_enc (b : String) (hb : b.data ≠ [])
    (hslash : ∀ x ∈ b.data, x ≠ '/') : parseName (b ++ ".enc") = b := by
  unfold parseName
  rw [extname_append_enc b hb hslash,
      revBasename_no_slash _ (no_slash_append b ".enc" hslash (by decide)),
      String.data_append, List.reverse_append]
  show String.mk
    ((('c' :: 'n' :: 'e' :: '.' :: b.data.reverse).drop 4).reverse) = b
  show String.mk (b.data.reverse.reverse) = b
  rw [List.reverse_reverse]

/-- A dot-free, slash-free name has no extension. -/
theorem extname_plain (b : String) (hdot : ∀ x ∈ b.data, x ≠ '.')
    (hslash : ∀ x ∈ b.data, x ≠ '/') : extname b = "" := by
  unfold extname
  rw [revBasename_no_slash _ hslash]
  exact extOfRev_dotless _ (fun x hx => hdot x (List.mem_reverse.mp hx))

/-- `extname` of `b ++ ".enc.gz"` — the suffixes in the wrong order —
is `.gz`, not `.enc`. -/
theorem extname_append_enc_gz (b : String)
    (hslash : ∀ x ∈ b.data, x ≠ '/') :
    extname (b ++ ".enc.gz") = ".gz" := by
  unfold extname
  rw [revBasename_no_slash _ (no_slash_append b ".enc.gz" hslash (by decide)),
      String.data_append, List.reverse_append]
  show extOfRev
    ('z' :: 'g' :: '.' :: ('c' :: 'n' :: 'e' :: '.' :: b.data.reverse)) = ".gz"
  exact extOfRev_gz _ (by simp)

/-- C3: capability detection peels recognized suffixes from the right,
`.enc` first and then `.gz` on the remaining name, each capability
independent: for any plain base name, `b.gz.enc` enables both (with the
supplied key), `b.gz` enables compression only, `b.enc` enables
encryption only, and a bare `b` enables neither. -/
theorem getLocalFileSourceOptions_peels (b : String) (key : Option String)
    (hb : b.data ≠ []) (hdot : ∀ x ∈ b.data, x ≠ '.')
    (hslash : ∀ x ∈ b.data, x ≠ '/') :
    getLocalFileSourceOptions (b ++ ".gz.enc") key =
      { filePath := b ++ ".gz.enc", compressionEnabled := true,
        encryptionEnabled := true, encryptionKey := key } ∧
    getLocalFileSourceOptions (b ++ ".gz") key =
      { filePath := b ++ ".gz", compressionEnabled := true,
        encryptionEnabled := false, encryptionKey := none } ∧
    getLocalFileSourceOptions (b ++ ".enc") key =
      { filePath := b ++ ".enc", compressionEnabled := false,
        encryptionEnabled := true, encryptionKey := key } ∧
    getLocalFileSourceOptions b key =
      { filePath := b, compressionEnabled := false,
        encryptionEnabled := false, encryptionKey := none } := by
  refine ⟨?_, ?_, ?_, ?_⟩
  · simp [getLocalFileSourceOptions, extname_append_gz_enc b hslash,
      parseName_append_gz_enc b hslash, extname_append_gz b hb hslash]
  · simp [getLocalFileSourceOptions, extname_append_gz b hb hslash]
  · simp [getLocalFileSourceOptions, extname_append_enc b hb hslash,
      parseName_append_enc b hb hslash, extname_plain b hdot hslash]
  · simp [getLocalFileSourceOptions, extname_plain b hdot hslash]

/-- Witness for C3 at the spec's own examples, base name `report`. -/
theorem getLocalFileSourceOptions_peels_witness :
    getLocalFileSourceOptions "report.gz.enc" (some "k") =
      { filePath := "report.gz.enc", compressionEnabled := true,
        encryptionEnabled := true, encryptionKey := some "k" } ∧
    getLocalFileSourceOptions "report.gz" (some "k") =
      { filePath := "report.gz", compressionEnabled := true,
        encryptionEnabled := false, encryptionKey := none } ∧
    getLocalFileSourceOptions "report.enc" (some "k") =
      { filePath := "report.enc", compressionEnabled := false,
        encryptionEnabled := true, encryptionKey := some "k" } := by
  have h := getLocalFileSourceOptions_peels "report" (some "k")
    (by decide) (by decide) (by decide)
  exact ⟨h.1, h.2.1, h.2.2.1⟩

/-- C4 counterexample: on `report.enc` with no key supplied, option
construction does not fail — it returns an encryption-enabled
configuration whose key is absent. -/
theorem enc_without_key_no_failure_cex :
    getLocalFileSourceOptions "report.enc" none =
      { filePath := "report.enc", compressionEnabled := false,
        encryptionEnabled := true, encryptionKey := none } := by
  decide

/-- C4 as amended: option construction never fails; when the outermost
suffix is `.enc` it produces an encryption-enabled configuration whose
key is exactly the caller's (absent when none was supplied) —
validation of the key's presence is left to the downstream provider. -/
theorem enc_option_passes_key_through (p : String) (key : Option String)
    (h : extname p = ".enc") :
    (getLocalFileSourceOptions p key).encryptionEnabled = true ∧
    (getLocalFileSourceOptions p key).encryptionKey = key := by
  simp [getLocalFileSourceOptions, h]

/-- Witness for the amended C4 at `report.enc` with no key. -/
theorem enc_option_passes_key_through_witness :
    (getLocalFileSourceOptions "report.enc" none).encryptionEnabled = true ∧
    (getLocalFileSourceOptions "report.enc" none).encryptionKey = none := by
  exact enc_option_passes_key_through "report.enc" none (by decide)

/-- C9: suffix recognition is position-sensitive: with the suffixes in
the wrong order (`b.enc.gz`) encryption stays disabled even though
`.enc` occurs in the name; in general encryption is enabled only when
`.enc` is the outermost extension, and compression only when `.gz` is
the outermost extension remaining after an outer `.enc` (if any) was
stripped. -/
theorem suffixes_position_sensitive (b : String) (key : Option String)
    (hslash : ∀ x ∈ b.data, x ≠ '/') :
    (getLocalFileSourceOptions (b ++ ".enc.gz") key).encryptionEnabled = false ∧
    (getLocalFileSourceOptions (b ++ ".enc.gz") key).compressionEnabled = true ∧
    (∀ p k, (getLocalFileSourceOptions p k).encryptionEnabled = true →
      extname p = ".enc") ∧
    (∀ p k, (getLocalFileSourceOptions p k).compressionEnabled = true →
      (if extname p = ".enc" then extname (parseName p) else extname p)
        = ".gz") := by
  refine ⟨?_, ?_, ?_, ?_⟩
  · simp [getLocalFileSourceOptions, extname_append_enc_gz b hslash]
  · simp [getLocalFileSourceOptions, extname_append_enc_gz b hslash]
  · intro p k h
    by_cases hc : extname p = ".enc"
    · exact hc
    · simp [getLocalFileSourceOptions, hc] at h
  · intro p k h
    by_cases hc : extname p = ".enc"
    · simp [getLocalFileSourceOptions, hc] at h
      simp [hc, h]
    · simp [getLocalFileSourceOptions, hc] at h
      simp [hc, h]

/-- Witness for C9 at `report.enc.gz`. -/
theorem suffixes_position_sensitive_witness :
    (getLocalFileSourceOptions "report.enc.gz" (some "k")).encryptionEnabled
      = false ∧
    (getLocalFileSourceOptions "report.enc.gz" (some "k")).compressionEnabled
      = true := by
  have h := suffixes_position_sensitive "report" (some "k") (by decide)
  exact ⟨h.1, h.2.1⟩

/-! ## Helper lemmas for the exit-wait loop

The loop is analyzed by induction on the fuel `maxWait - t`, which
strictly decreases across the recursive call. -/

/-- The elapsed time at exit never exceeds `max t (maxWait + 49)`:
the loop leaves either at a poll time `< maxWait` or at the first poll
time `≥ maxWait`, which is less than 50 past the previous one. -/
theorem waitLoop_snd_le_aux (d : Nat) :
    ∀ (status : Nat → Option Nat) (maxWait t : Nat), maxWait - t ≤ d →
      (waitLoop status maxWait t).2 ≤ max t (maxWait + 49) := by
  induction d with
  | zero =>
      intro status maxWait t hd
      rw [waitLoop, if_neg (by omega)]
      exact le_max_left _ _
  | succ d ih =>
      intro status maxWait t hd
      rw [waitLoop]
      by_cases hlt : t < maxWait
      · rw [if_pos hlt]
        cases hc : status t with
        | some c => exact le_max_left _ _
        | none =>
            have := ih status maxWait (t + 50) (by omega)
            refine le_trans this ?_
            simp only [max_le_iff] at *
            omega
      · rw [if_neg hlt]
        exact le_max_left _ _

/-- If the cell never becomes set, the loop falls through to the
default exit code 0. -/
theorem waitLoop_none_aux (d : Nat) :
    ∀ (status : Nat → Option Nat) (maxWait t : Nat), maxWait - t ≤ d →
      (∀ u, status u = none) → (waitLoop status maxWait t).1 = 0 := by
  induction d with
  | zero =>
      intro status maxWait t hd h
      rw [waitLoop, if_neg (by omega)]
  | succ d ih =>
      intro status maxWait t hd h
      rw [waitLoop]
      by_cases hlt : t < maxWait
      · rw [if_pos hlt, h t]
        exact ih status maxWait (t + 50) (by omega) h
      · rw [if_neg hlt]

/-- If the cell holds `c` at a poll time `u` before the deadline (the
cell, once set, stays set), the loop exits with `c`. -/
theorem waitLoop_recorded_aux (d : Nat) :
    ∀ (status : Nat → Option Nat) (maxWait t u c : Nat),
      maxWait - t ≤ d →
      (∀ x y, status x = some y → ∀ v, x ≤ v → status v = some y) →
      status u = some c → t ≤ u → 50 ∣ (u - t) → u < maxWait →
      (waitLoop status maxWait t).1 = c := by
  induction d with
  | zero =>
      intro status maxWait t u c hd hmono hu ht hdvd hum
      omega
  | succ d ih =>
      intro status maxWait t u c hd hmono hu ht hdvd hum
      have hlt : t < maxWait := by omega
      rw [waitLoop, if_pos hlt]
      cases hc : status t with
      | some c' =>
          have := hmono t c' hc u ht
          rw [hu] at this
          exact (Option.some.inj this).symm
      | none =>
          have htu : t ≠ u := by
            intro h
            rw [h, hu] at hc
            exact absurd hc (by simp)
          have ht' : t + 50 ≤ u := by
            rcases hdvd with ⟨k, hk⟩
            omega
          refine ih status maxWait (t + 50) u c (by omega) hmono hu ht' ?_ hum
          rcases hdvd with ⟨k, hk⟩
          exact ⟨k - 1, by omega⟩

/-- C2: the exit wait leaves within `maxWait` plus one 50 ms polling
interval; if the status cell is set (and stays set) at a poll time
before the deadline it exits with the recorded code, and if the cell is
never set it exits with the default code 0. -/
theorem waitForExitCode_bounded_and_faithful (status : Nat → Option Nat)
    (maxWait : Nat)
    (hmono : ∀ x y, status x = some y → ∀ v, x ≤ v → status v = some y) :
    (waitForExitCode status maxWait).2 ≤ maxWait + 50 ∧
    (∀ u c, u < maxWait → 50 ∣ u → status u = some c →
      (waitForExitCode status maxWait).1 = c) ∧
    ((∀ u, status u = none) → (waitForExitCode status maxWait).1 = 0) := by
  refine ⟨?_, ?_, ?_⟩
  · have h := waitLoop_snd_le_aux maxWait status maxWait 0 (by omega)
    have hm : max 0 (maxWait + 49) = maxWait + 49 := max_eq_right (Nat.zero_le _)
    rw [hm] at h
    exact le_trans h (by omega)
  · intro u c hu hd hsc
    exact waitLoop_recorded_aux maxWait status maxWait 0 u c (by omega) hmono hsc
      (Nat.zero_le u) (by simpa using hd) hu
  · intro h
    exact waitLoop_none_aux maxWait status maxWait 0 (by omega) h

/-- Witness for C2: a status cell holding 3 from the start makes the
wait exit with code 3, within the bound. -/
theorem waitForExitCode_bounded_and_faithful_witness :
    (waitForExitCode (fun _ => some 3) 100).2 ≤ 100 + 50 ∧
    (waitForExitCode (fun _ => some 3) 100).1 = 3 := by
  have h := waitForExitCode_bounded_and_faithful (fun _ => some 3) 100
    (fun x y hx v _ => hx)
  exact ⟨h.1, h.2.1 0 3 (by decide) (by decide) rfl⟩

/-- `statusFrom` is monotone: once set it stays set with the same
value. -/
theorem statusFrom_mono (trace : List LifecycleEvent) (settleTime : Nat) :
    ∀ x y, statusFrom trace settleTime x = some y →
      ∀ v, x ≤ v → statusFrom trace settleTime v = some y := by
  intro x y hx v hxv
  simp only [statusFrom] at hx ⊢
  by_cases hsx : settleTime ≤ x
  · rw [if_pos hsx] at hx
    rw [if_pos (le_trans hsx hxv)]
    exact hx
  · rw [if_neg hsx] at hx
    exact absurd hx (by simp)

/-- A trace closed by `transfer::finish` leaves 0 in the cell, and one
closed by `transfer::error` leaves 1. -/
theorem runHandlers_terminal (l : List LifecycleEvent) :
    runHandlers (l ++ [LifecycleEvent.finish]) = some 0 ∧
    runHandlers (l ++ [LifecycleEvent.error]) = some 1 := by
  constructor <;> simp [runHandlers, List.foldl_append, handleEvent]

/-- C5: the process exit code is 1 on invalid arguments and on an
exception escaping the orchestration; after a fulfilled orchestration
it is the code the handlers recorded — 0 for a finished run, 1 for an
errored run — when they settle at a poll time before the 5000 ms
deadline, and 0 by default when nothing was recorded. -/
theorem importCommand_exit_code_cases (trace : List LifecycleEvent)
    (settleTime : Nat) (hs : settleTime < 5000) (hd : 50 ∣ settleTime) :
    (∀ run, (importCommand false run).exitCode = 1) ∧
    (importCommand true OrchestrationRun.thrown).exitCode = 1 ∧
    (runHandlers trace = some 0 →
      (importCommand true
        (OrchestrationRun.fulfilled (statusFrom trace settleTime))).exitCode
        = 0) ∧
    (runHandlers trace = some 1 →
      (importCommand true
        (OrchestrationRun.fulfilled (statusFrom trace settleTime))).exitCode
        = 1) ∧
    (runHandlers trace = none →
      (importCommand true
        (OrchestrationRun.fulfilled (statusFrom trace settleTime))).exitCode
        = 0) := by
  have hat : statusFrom trace settleTime settleTime = runHandlers trace := by
    simp [statusFrom]
  refine ⟨fun run => rfl, rfl, fun h0 => ?_, fun h1 => ?_, fun hn => ?_⟩
  · show (waitForExitCode (statusFrom trace settleTime) 5000).1 = 0
    exact waitLoop_recorded_aux 5000 _ 5000 0 settleTime 0 (by omega)
      (statusFrom_mono trace settleTime) (by rw [hat, h0]) (Nat.zero_le _)
      (by simpa using hd) hs
  · show (waitForExitCode (statusFrom trace settleTime) 5000).1 = 1
    exact waitLoop_recorded_aux 5000 _ 5000 0 settleTime 1 (by omega)
      (statusFrom_mono trace settleTime) (by rw [hat, h1]) (Nat.zero_le _)
      (by simpa using hd) hs
  · show (waitForExitCode (statusFrom trace settleTime) 5000).1 = 0
    refine waitLoop_none_aux 5000 _ 5000 0 (by omega) ?_
    intro u
    simp [statusFrom, hn]

/-- Witness for C5: a run whose trace closes with `finish`, settling at
the first poll, exits 0; invalid arguments and an escaped exception
exit 1. -/
theorem importCommand_exit_code_cases_witness :
    (importCommand true
      (OrchestrationRun.fulfilled
        (statusFrom [LifecycleEvent.start, LifecycleEvent.finish] 0))).exitCode
      = 0 ∧
    (importCommand false OrchestrationRun.thrown).exitCode = 1 ∧
    (importCommand true OrchestrationRun.thrown).exitCode = 1 := by
  have h := importCommand_exit_code_cases
    [LifecycleEvent.start, LifecycleEvent.finish] 0 (by decide) (by decide)
  exact ⟨h.2.2.1 rfl, h.1 OrchestrationRun.thrown, h.2.1⟩

/-! ## Helper lemmas for the status cell's single-assignment claim -/

/-- A non-terminal event's handler leaves the cell unchanged. -/
theorem handleEvent_nonterminal (cell : Option Nat) (e : LifecycleEvent)
    (h : e.isTerminal = false) : handleEvent cell e = cell := by
  cases e with
  | start => rfl
  | finish => exact absurd h (by simp [LifecycleEvent.isTerminal])
  | error => exact absurd h (by simp [LifecycleEvent.isTerminal])

/-- Folding the handlers over a terminal-free trace leaves any cell
content unchanged. -/
theorem foldl_handleEvent_no_terminal (l : List LifecycleEvent) :
    ∀ cell, (∀ e ∈ l, e.isTerminal = false) →
      l.foldl handleEvent cell = cell := by
  induction l with
  | nil => intro cell _; rfl
  | cons e l ih =>
      intro cell h
      rw [List.foldl_cons, handleEvent_nonterminal cell e (h e (List.mem_cons_self e l))]
      exact ih cell (fun x hx => h x (List.mem_cons_of_mem e hx))

/-- A set cell can only have come from some terminal event in the
trace. -/
theorem runHandlers_some_has_terminal (l : List LifecycleEvent) (v : Nat)
    (h : runHandlers l = some v) : ∃ e ∈ l, e.isTerminal = true := by
  by_contra hno
  push_neg at hno
  have : runHandlers l = none :=
    foldl_handleEvent_no_terminal l none
      (fun e he => Bool.not_eq_true _ ▸ (hno e he))
  rw [this] at h
  exact absurd h (by simp)

/-- C6: in a well-formed run (at most one terminal event), the cell is
written by at most one handler invocation, non-terminal handlers never
touch it, and a recorded value survives to the end of the trace — no
later handler silently overwrites it. -/
theorem transferExitCode_written_once (l₁ l₂ : List LifecycleEvent)
    (hw : wellFormedTrace (l₁ ++ l₂) = true) :
    (l₁ ++ l₂).countP (·.isTerminal) ≤ 1 ∧
    (∀ cell e, e.isTerminal = false → handleEvent cell e = cell) ∧
    (∀ v, runHandlers l₁ = some v → runHandlers (l₁ ++ l₂) = some v) := by
  have hcount : (l₁ ++ l₂).countP (·.isTerminal) ≤ 1 := by
    simpa [wellFormedTrace] using hw
  refine ⟨hcount, fun cell e h => handleEvent_nonterminal cell e h, ?_⟩
  intro v hv
  obtain ⟨e, he, het⟩ := runHandlers_some_has_terminal l₁ v hv
  have h₁ : 0 < l₁.countP (·.isTerminal) := List.countP_pos_iff.mpr ⟨e, he, het⟩
  have h₂ : l₂.countP (·.isTerminal) = 0 := by
    rw [List.countP_append] at hcount
    omega
  have hl₂ : ∀ x ∈ l₂, x.isTerminal = false := by
    intro x hx
    have := (List.countP_eq_zero.mp h₂) x hx
    simpa using this
  calc runHandlers (l₁ ++ l₂)
      = l₂.foldl handleEvent (runHandlers l₁) := by
        simp [runHandlers, List.foldl_append]
    _ = runHandlers l₁ := foldl_handleEvent_no_terminal l₂ _ hl₂
    _ = some v := hv

/-- Witness for C6: the trace `[start, finish, start]` is well formed,
records 0 after its prefix `[start, finish]`, and still holds 0 at the
end. -/
theorem transferExitCode_written_once_witness :
    runHandlers ([LifecycleEvent.start, LifecycleEvent.finish] ++
      [LifecycleEvent.start]) = some 0 := by
  have h := transferExitCode_written_once
    [LifecycleEvent.start, LifecycleEvent.finish] [LifecycleEvent.start]
    (by decide)
  exact h.2.2 0 rfl

/-- C7: with valid arguments, an exception escaping the awaited
orchestration block is caught, logged, and exits the process with
code 1 immediately — the bounded exit wait never runs. -/
theorem thrown_bypasses_exit_wait :
    importCommand true OrchestrationRun.thrown =
      { exitCode := 1, ranExitWait := false, loggedUnexpectedFailure := true } :=
  rfl

end ImportCommand
